import Mathlib

/-!
Verification of the live-translator streaming pipeline
(`src/workers/whisper.worker.ts`, `src/hooks/useWhisper.ts`, `src/config.ts`).

The worker's pure logic is embedded shallowly: strings are Lean `String`s,
the worker's module-level mutable variables (`sentenceBuffer`,
`completedSentences`, `contextBuffer`, `recentOutputs`) become an explicit
state record, audio sample buffers become lists of rationals, and each
network/model call is represented by its response value (an `Except` for
thrown failures, and an `Option Json` for the JSON.parse step, `none`
standing for a parse exception).
-/

namespace LiveTranslator

/-! ## Character-level helpers for the JS string operations -/

/-- The apostrophe character (U+0027). -/
def aposChar : Char := Char.ofNat 39

/-- The double-quote character (U+0022). -/
def quoteChar : Char := Char.ofNat 34

/-- Apostrophe as a one-character string, used to spell set entries that
contain one. -/
def aposStr : String := String.singleton aposChar

/-- JavaScript whitespace (the class trimmed by `String.prototype.trim` and
matched by `\s`): tab through carriage return, space, NBSP, the Unicode
space separators, line/paragraph separators, and the BOM. -/
def jsIsSpace (c : Char) : Bool :=
  c.toNat = 9 || c.toNat = 10 || c.toNat = 11 || c.toNat = 12 || c.toNat = 13 ||
  c.toNat = 32 || c.toNat = 160 || c.toNat = 5760 ||
  (8192 ≤ c.toNat && c.toNat ≤ 8202) ||
  c.toNat = 8232 || c.toNat = 8233 || c.toNat = 8239 || c.toNat = 8287 ||
  c.toNat = 12288 || c.toNat = 65279

/-- Drop the longest prefix of characters satisfying `p`. -/
def dropLeadingWhile (p : Char → Bool) (cs : List Char) : List Char :=
  cs.dropWhile p

/-- Drop the longest suffix of characters satisfying `p`. -/
def dropTrailingWhile (p : Char → Bool) (cs : List Char) : List Char :=
  (cs.reverse.dropWhile p).reverse

/-- `String.prototype.trim`. -/
def jsTrim (s : String) : String :=
  String.mk (dropTrailingWhile jsIsSpace (dropLeadingWhile jsIsSpace s.toList))

/-- The punctuation class of the two strip regexes in `filterHallucinations`:
`[.,!?…\-:;'"]` — period, comma, bang, question mark, horizontal ellipsis,
hyphen, colon, semicolon, apostrophe, double quote. -/
def stripPunct (c : Char) : Bool :=
  c = '.' || c = ',' || c = '!' || c = '?' || c = '…' || c = '-' ||
  c = ':' || c = ';' || c = aposChar || c = quoteChar

/-- Membership in the class of `/^[\s.,!?\-…:;'"]+$/`: JS whitespace or the
strip punctuation. -/
def punctOrSpace (c : Char) : Bool :=
  jsIsSpace c || stripPunct c

/-- `/^[\s.,!?\-…:;'"]+$/.test s`: non-empty and every character in the
class. -/
def punctOnly (s : String) : Bool :=
  !s.toList.isEmpty && s.toList.all punctOrSpace

/-- What the JS `.` metacharacter matches (no `s` flag): anything but
line feed, carriage return, line separator, paragraph separator. -/
def jsDotMatches (c : Char) : Bool :=
  !(c.toNat = 10 || c.toNat = 13 || c.toNat = 8232 || c.toNat = 8233)

/-- `/^L.*R$/.test s` for single delimiter characters `L`, `R`: first
character is `L`, last is `R`, at least two characters, and the middle is
matched by `.*`. -/
def wrappedBy (l r : Char) (s : String) : Bool :=
  match s.toList with
  | [] => false
  | [_] => false
  | c :: rest =>
      c = l && rest.getLast? = some r && rest.dropLast.all jsDotMatches

/-- ASCII lower-casing, the fragment of `String.prototype.toLowerCase`
exercised by the worker (the hallucination set and the claims are ASCII). -/
def jsToLower (s : String) : String :=
  String.mk (s.toList.map Char.toLower)

/-! ## The Output Filter (`filterHallucinations`, worker lines 458–477) -/

/-- `MAX_RECENT` (worker line 425). -/
def MAX_RECENT : Nat := 10

/-- `HALLUCINATION_SET` (worker lines 445–456). -/
def HALLUCINATION_SET : List String :=
  [ "thank you", "thank you for watching", "thanks", "thanks for watching",
    "please subscribe", "subscribe", "like and subscribe",
    "i" ++ aposStr ++ "m sorry", "sorry", "bye", "goodbye", "good bye",
    "bye bye", "bye-bye",
    "hello", "hey", "hi", "okay", "ok", "yes", "no", "yeah", "yep", "nope",
    "hmm", "uh", "ah", "oh", "um", "er", "mhm",
    "music", "applause", "laughter", "silence",
    "cheering", "laughing", "clapping", "sighing", "coughing",
    "see you", "see you next time", "have a good night", "have a good day",
    "good night", "good morning", "good evening", "good afternoon",
    "have a nice day", "take care", "you", "the", "i", "it", "a" ]

/-- The normalisation performed at worker line 465: strip one maximal
trailing run of the punctuation class, then one maximal leading run, then
trim whitespace, then lower-case. -/
def jsNormalize (text : String) : String :=
  let trimmed := jsTrim text
  jsToLower (jsTrim (String.mk
    (dropLeadingWhile stripPunct (dropTrailingWhile stripPunct trimmed.toList))))

/-- Pushing into the bounded `recentOutputs` window (worker lines 473–474):
append, then `shift()` one element off the front when the length exceeds
`MAX_RECENT`. -/
def pushRecent (recent : List String) (c : String) : List String :=
  let r1 := recent ++ [c]
  if MAX_RECENT < r1.length then r1.tail else r1

/-- `filterHallucinations` (worker lines 458–477) with the module-level
`recentOutputs` array made an explicit argument; returns the filtered text
(`""` = suppress, as in the source) together with the updated window. -/
def filterHallucinations (text : String) (recent : List String) :
    String × List String :=
  let trimmed := jsTrim text
  if trimmed = "" then ("", recent)
  else if punctOnly trimmed then ("", recent)
  else if wrappedBy '(' ')' trimmed || wrappedBy '[' ']' trimmed then ("", recent)
  else
    let cleaned := jsNormalize text
    if cleaned = "" ∨ cleaned.length < 2 then ("", recent)
    else if cleaned ∈ HALLUCINATION_SET then ("", recent)
    else if 2 ≤ recent.count cleaned then ("", recent)
    else (trimmed, pushRecent recent cleaned)

/-- All static suppression conditions of the filter pass for `text`: the
trimmed text is non-empty, not punctuation-only, not a parenthesised or
bracketed annotation pattern, and its normalised form is at least two
characters and outside the hallucination set.  A string passing these
checks can only be suppressed by the duplicate-window rule. -/
def staticPass (text : String) : Bool :=
  (jsTrim text ≠ "") && (punctOnly (jsTrim text) = false) &&
  ((wrappedBy '(' ')' (jsTrim text) || wrappedBy '[' ']' (jsTrim text)) = false) &&
  (jsNormalize text ≠ "") && (2 ≤ (jsNormalize text).length) &&
  (jsNormalize text ∉ HALLUCINATION_SET)

/-- Shape of the `recentOutputs` window after `k` consecutive pushes of the
same normalised form `c`: a prefix free of `c` followed by `k` copies of `c`,
within the size bound. -/
def WindowShape (c : String) (k : Nat) (st : List String) : Prop :=
  ∃ pre, st = pre ++ List.replicate k c ∧ (∀ x ∈ pre, x ≠ c) ∧
    st.length ≤ MAX_RECENT

/-! ## JSON values and the collaborator response parsers

`detectSentenceBoundaries` and `proofreadSentences` run `JSON.parse` on the
model's reply and then shape-check the result.  `JSON.parse` itself is a JS
built-in, so its outcome is modelled as `Option Json`: `none` when it throws
(unparseable content), `some j` when it yields the value `j`.  Property
access on `null` throws a TypeError inside the same `try` block, so a parsed
`null` also lands in the catch fallback. -/

inductive Json where
  | null : Json
  | bool (b : Bool) : Json
  | num (q : ℚ) : Json
  | str (s : String) : Json
  | arr (elems : List Json) : Json
  | obj (fields : List (String × Json)) : Json

/-- JS property access `j.k` on a parsed JSON value: a field lookup on an
object, `undefined` (here `none`) on anything that is not an object.
(Access on `null` throws; callers handle that case separately.) -/
def jsonGet (j : Json) (k : String) : Option Json :=
  match j with
  | Json.obj fields => (fields.find? (fun f => f.1 = k)).map Prod.snd
  | _ => none

/-- The string the downstream pipeline ends up holding for one array
element.  The worker's TS types claim the elements are strings and passes
them through unchecked; a non-string element is represented by a canonical
placeholder (the claims only exercise string elements). -/
def jsonAsString (j : Json) : String :=
  match j with
  | Json.str s => s
  | _ => "[object]"

/-- The parsed shape of a segmentation reply. -/
structure SentenceSplit where
  sentences : List String
  pending : String
  deriving DecidableEq

/-- The pure tail of `detectSentenceBoundaries` (worker lines 246–258):
given the text that was submitted and the `JSON.parse` outcome of the
reply content, produce the split.  A parse exception — and a parsed `null`,
whose property access throws inside the same `try` — fall back to zero
sentences with the whole input pending.  Otherwise each field is
shape-checked independently: `sentences` must be an array (else `[]`),
`pending` must be a string (else `""`). -/
def parseSentenceSplit (input : String) (content : Option Json) : SentenceSplit :=
  match content with
  | none => { sentences := [], pending := input }
  | some Json.null => { sentences := [], pending := input }
  | some j =>
      { sentences :=
          match jsonGet j "sentences" with
          | some (Json.arr xs) => xs.map jsonAsString
          | _ => []
        pending :=
          match jsonGet j "pending" with
          | some (Json.str s) => s
          | _ => "" }

/-- The pure tail of `proofreadSentences` (worker lines 260–318): the
empty-input short-circuit, then the `JSON.parse` outcome shape-check.  A
parse exception (or parsed `null`) falls back to the originals; a
`corrected` field that is not an array yields `[]`; any length mismatch
falls back to the originals. -/
def correctedField (j : Json) : List String :=
  match jsonGet j "corrected" with
  | some (Json.arr xs) => xs.map jsonAsString
  | _ => []

def parseProofread (newSentences : List String) (content : Option Json) :
    List String :=
  if newSentences.length = 0 then []
  else
    match content with
    | none => newSentences
    | some Json.null => newSentences
    | some j =>
        if (correctedField j).length = newSentences.length then
          correctedField j
        else newSentences

/-! ## Worker state and one chunk of the sentence-buffered pipeline

The worker's module-level mutable variables become an explicit state
record.  Each external call made while processing one chunk is represented
by its response: `Except.error msg` models a thrown failure (network error,
non-success HTTP status, or a non-JSON response envelope), `Except.ok`
carries the value the worker goes on to use.  For the segmentation and
proofreading calls that value is the `JSON.parse` outcome of the reply
content (`Option Json`, see above). -/

structure WorkerState where
  sentenceBuffer : String
  completedSentences : List String
  contextBuffer : List String
  recentOutputs : List String
  deriving DecidableEq

/-- The worker's state when the module is first evaluated
(worker lines 31–33 and 424). -/
def WorkerState.initial : WorkerState :=
  { sentenceBuffer := "", completedSentences := [], contextBuffer := [],
    recentOutputs := [] }

/-- Messages the worker posts to the host (`WorkerResponse`, lines 12–19;
the loading/partial variants are irrelevant to the claims). -/
inductive Event where
  | ready (backend : String)
  | transcriptUpdate (sentences : List String) (pending : String)
  | translationUpdate (text : String)
  | finalText (text : String)
  | errorMsg (message : String)
  deriving DecidableEq

/-- The responses of the external calls made while processing one chunk. -/
structure ChunkOracle where
  transcribe : Except String String
  segment : Except String (Option Json)
  proofread : Except String (Option Json)
  translate : String → Except String String

/-- Result of one worker async function: final shared state, the events it
posted, and the exception it let escape, if any. -/
structure StepResult where
  state : WorkerState
  events : List Event
  thrown : Option String
  deriving DecidableEq

/-- `config.cloud.proofReadContextSize`. -/
def PROOFREAD_CONTEXT_SIZE : Nat := 20

/-- `contextBuffer = contextBuffer.slice(-size)` guarded by the length test
(worker lines 380–382): keep the last `bound` elements once the bound is
exceeded. -/
def fifoBound (bound : Nat) (l : List String) : List String :=
  if bound < l.length then l.drop (l.length - bound) else l

/-- The sequential correction loop of worker lines 363–366:
`completedSentences[insertIndex + i] = corrected[i]` for `i` ascending. -/
def overwriteFrom (l : List String) (start : Nat) : List String → List String
  | [] => l
  | r :: rs => overwriteFrom (l.set start r) (start + 1) rs

/-- Worker line 335: join the new fragment onto the pending buffer
(space-joined unless the buffer is empty). -/
def appendBuffer (buf koreanText : String) : String :=
  if buf = "" then jsTrim koreanText else buf ++ " " ++ jsTrim koreanText

/-- The per-sentence translate loop (worker lines 385–391): translate each
forwarded sentence in order; a thrown failure aborts the rest of the loop;
an accepted (filter-passing) translation is posted. -/
def translateLoop (tr : String → Except String String) (st : WorkerState)
    (evs : List Event) : List String → StepResult
  | [] => ⟨st, evs, none⟩
  | s :: rest =>
      match tr s with
      | Except.error e => ⟨st, evs, some e⟩
      | Except.ok eng =>
          let fr := filterHallucinations eng st.recentOutputs
          let st1 := { st with recentOutputs := fr.2 }
          let evs1 := if fr.1 ≠ "" then evs ++ [Event.translationUpdate fr.1]
                      else evs
          translateLoop tr st1 evs1 rest

/-- `cloudSentenceBuffered` (worker lines 331–392) as a state transition:
one chunk of the two-stage sentence-buffered pipeline, from the recognize
call to the per-sentence translations. -/
def cloudSentenceBuffered (proofReadEnabled : Bool) (ctxSize : Nat)
    (st : WorkerState) (o : ChunkOracle) : StepResult :=
  match o.transcribe with
  | Except.error e => ⟨st, [], some e⟩
  | Except.ok koreanText =>
    if jsTrim koreanText = "" then ⟨st, [], none⟩
    else
      let sb1 := appendBuffer st.sentenceBuffer koreanText
      let st1 := { st with sentenceBuffer := sb1 }
      let evs1 := if proofReadEnabled then
          [Event.transcriptUpdate st.completedSentences sb1] else []
      match o.segment with
      | Except.error e => ⟨st1, evs1, some e⟩
      | Except.ok content =>
        let split := parseSentenceSplit sb1 content
        let st2 : WorkerState := { st1 with
          completedSentences := st1.completedSentences ++ split.sentences,
          sentenceBuffer := split.pending }
        let evs2 := evs1 ++
          [Event.transcriptUpdate st2.completedSentences st2.sentenceBuffer]
        if proofReadEnabled ∧ split.sentences ≠ [] then
          match o.proofread with
          | Except.error _ =>
              -- the catch at worker line 375 swallows the failure: raw
              -- sentences are forwarded, nothing is overwritten, no event
              let ctx3 := fifoBound ctxSize (st2.contextBuffer ++ split.sentences)
              let st3 := { st2 with contextBuffer := ctx3 }
              translateLoop o.translate st3 evs2 split.sentences
          | Except.ok pcontent =>
              let corrected := parseProofread split.sentences pcontent
              let comp3 := overwriteFrom st2.completedSentences
                (st2.completedSentences.length - split.sentences.length) corrected
              let st3 := { st2 with completedSentences := comp3 }
              let evs3 := evs2 ++
                [Event.transcriptUpdate st3.completedSentences
                  st3.sentenceBuffer]
              let ctx4 := fifoBound ctxSize (st3.contextBuffer ++ corrected)
              let st4 := { st3 with contextBuffer := ctx4 }
              translateLoop o.translate st4 evs3 corrected
        else
          translateLoop o.translate st2 evs2 split.sentences

/-- `transcribeCloud` (worker lines 394–411) after the energy gate, in the
sentence-buffered configuration: run the chunk and convert an escaped
exception into a single posted error event. -/
def transcribeCloudBody (proofReadEnabled : Bool) (ctxSize : Nat)
    (st : WorkerState) (o : ChunkOracle) : WorkerState × List Event :=
  match cloudSentenceBuffered proofReadEnabled ctxSize st o with
  | ⟨st1, evs, some msg⟩ => (st1, evs ++ [Event.errorMsg msg])
  | ⟨st1, evs, none⟩ => (st1, evs)

/-! ## Concrete sample responses used by the witnesses -/

/-- A well-formed segmentation reply: one complete sentence, one pending
fragment. -/
def sampleSegContent : Option Json :=
  some (Json.obj
    [("sentences", Json.arr [Json.str "sentence one"]),
     ("pending", Json.str "and")])

/-- A proofread reply whose corrected count (2) mismatches the single
submitted sentence. -/
def sampleMismatchJson : Json :=
  Json.obj [("corrected", Json.arr [Json.str "alpha", Json.str "beta"])]

/-- A chunk in which every call succeeds but the proofread reply has a
mismatched count. -/
def sampleMismatchOracle : ChunkOracle :=
  { transcribe := Except.ok "sentence one and"
    segment := Except.ok sampleSegContent
    proofread := Except.ok (some sampleMismatchJson)
    translate := fun _ => Except.ok "Here is a translation" }

/-- A chunk whose proofread call itself fails (network error). -/
def sampleProofreadFailOracle : ChunkOracle :=
  { sampleMismatchOracle with
      proofread := Except.error "proofread network failure" }

/-- A chunk whose recognize call fails. -/
def sampleTranscribeFailOracle : ChunkOracle :=
  { sampleMismatchOracle with transcribe := Except.error "network down" }

/-- A chunk whose recognize call returns whitespace only. -/
def sampleWhitespaceOracle : ChunkOracle :=
  { sampleMismatchOracle with transcribe := Except.ok "   " }

/-- Recognise the worker's error events. -/
def isErrorEvent : Event → Bool
  | Event.errorMsg _ => true
  | _ => false

/-! ## Worker message handling and recording sessions (C2)

`self.onmessage` (worker lines 512–539) clears `sentenceBuffer`,
`completedSentences` and `contextBuffer` when — and only when — a `load`
message arrives; `recentOutputs` is never cleared by any message.  The
host hook posts `load` exactly once, when the component mounts
(useWhisper line 115).  `startRecording` (hook lines 171–195) and
`stopRecording` (hook lines 197–211) post no message to the worker at
all: they only reset the React-side mirrors and start or stop the capture
loop.  The gate decision for a `transcribe` message is abstracted to the
boolean it produces; its computation over the audio samples is analysed
separately below. -/

inductive WorkerMsg where
  | load
  | transcribe (gateOk : Bool) (o : ChunkOracle)

/-- The shipped configuration (config.ts lines 95–137): cloud mode,
transcribe-translate pipeline, `sentenceBuffered` and `proofReading` both
true — so `proofReadEnabled` (worker lines 26–28) is true. -/
def configProofRead : Bool := true

def onMessage (st : WorkerState) (m : WorkerMsg) : WorkerState × List Event :=
  match m with
  | WorkerMsg.load =>
      ({ st with sentenceBuffer := "", completedSentences := [],
                 contextBuffer := [] },
       [Event.ready "cloud (OpenAI)"])
  | WorkerMsg.transcribe gateOk o =>
      if gateOk then
        transcribeCloudBody configProofRead PROOFREAD_CONTEXT_SIZE st o
      else (st, [])

def runWorker (st : WorkerState) (msgs : List WorkerMsg) :
    WorkerState × List Event :=
  msgs.foldl
    (fun acc m =>
      let r := onMessage acc.1 m
      (r.1, acc.2 ++ r.2))
    (st, [])

/-- `startRecording` posts nothing to the worker. -/
def startRecordingWorkerMsgs : List WorkerMsg := []

/-- `stopRecording` posts nothing to the worker. -/
def stopRecordingWorkerMsgs : List WorkerMsg := []

/-- A second-session chunk; its segmentation reply is unparseable so the
whole (joined) buffer stays pending. -/
def sampleSession2Oracle : ChunkOracle :=
  { transcribe := Except.ok "more words"
    segment := Except.ok none
    proofread := Except.ok none
    translate := fun _ => Except.ok "another translation" }

/-- The worker's message history up to the start of the second recording
session: mount-time `load`, one processed chunk in session one, then the
stop/start boundary — which sends nothing. -/
def twoSessionPrefixMsgs : List WorkerMsg :=
  [WorkerMsg.load, WorkerMsg.transcribe true sampleMismatchOracle] ++
  stopRecordingWorkerMsgs ++ startRecordingWorkerMsgs

/-! ## Chunk-level concurrency (C1)

The worker registers `self.onmessage` as an async function and keeps no
queue: each incoming `transcribe` message starts a fresh handler
invocation immediately, and invocations suspended at an `await`
interleave on the event loop.  Within one invocation the pipeline stages
run sequentially, so — with the event loop resuming each `await` as soon
as its network call completes — the chunk dispatched at time `arrival`
whose calls take `stageLatencies` finishes (and emits its translation) at
`arrival + sum stageLatencies`.  Nothing makes a later chunk wait for an
earlier one, so host-visible emission order is completion order; ties are
broken by dispatch order. -/

structure TimedChunk where
  arrival : Nat
  stageLatencies : List Nat
  deriving DecidableEq

def completionTime (c : TimedChunk) : Nat := c.arrival + c.stageLatencies.sum

/-- Insert index `i` into a completion-time-sorted index list, after any
index with the same time (the event loop serves same-tick resumptions in
dispatch order). -/
def insertByTime (ts : List Nat) (i : Nat) : List Nat → List Nat
  | [] => [i]
  | j :: rest =>
      if ts.getD i 0 < ts.getD j 0 then i :: j :: rest
      else j :: insertByTime ts i rest

/-- The order, by chunk index, in which the unserialised worker emits the
chunks' results. -/
def emissionOrder (chunks : List TimedChunk) : List Nat :=
  (List.range chunks.length).foldl
    (fun acc i => insertByTime (chunks.map completionTime) i acc) []

/-- The serialisation discipline the claim asserts: no chunk's processing
begins (the handler starts at message arrival — there is no queue to
delay it) before the previous chunk's processing has completed. -/
def Serialized (chunks : List TimedChunk) : Prop :=
  ∀ i j, i + 1 = j → j < chunks.length →
    completionTime (chunks.getD i ⟨0, []⟩) ≤ (chunks.getD j ⟨0, []⟩).arrival

/-- Chunk A slow (500 ms recognize), chunks B and C dispatched shortly
after with faster calls — the spec's own reordering scenario. -/
def reorderingScenario : List TimedChunk :=
  [⟨0, [500, 40, 40]⟩, ⟨10, [100, 40, 40]⟩, ⟨20, [300, 40, 40]⟩]

/-! ## The Chunk Gate (C6)

Audio samples are modelled as exact rationals (every finite JS float is
one) and the square-root arithmetic of `Math.sqrt` as real-valued.  The
gate is purely arithmetic over the sample buffer: no state, no events, no
network call appears in its definitions.  One JS corner is noted: for a
zero-length buffer `sum / audio.length` is NaN, `NaN < threshold` is
false, and the chunk is then rejected by `hasSpeechActivity` (zero
frames); in the real-valued model division by zero yields `0` and the
same chunk is rejected already by the energy test — the gate decision
agrees. -/

/-- `SILENCE_THRESHOLD` (worker line 421). -/
def SILENCE_THRESHOLD : ℚ := 1 / 100

/-- `SPEECH_ENERGY_THRESHOLD` (worker line 422). -/
def SPEECH_ENERGY_THRESHOLD : ℚ := 4 / 100

/-- The frame size of 100 ms at the 16 kHz working rate
(worker line 428). -/
def FRAME_SIZE : Nat := 1600

def sumSquares (audio : List ℚ) : ℚ :=
  (audio.map (fun x => x * x)).sum

/-- `getAudioEnergy` (worker lines 413–419): root-mean-square amplitude
over the whole chunk. -/
noncomputable def getAudioEnergy (audio : List ℚ) : ℝ :=
  Real.sqrt ((sumSquares audio : ℝ) / (audio.length : ℝ))

/-- `Math.floor(audio.length / frameSize)` (worker line 430). -/
def totalFrames (audio : List ℚ) : Nat := audio.length / FRAME_SIZE

/-- The `i`-th complete 100 ms frame (worker lines 432–436). -/
def frame (audio : List ℚ) (i : Nat) : List ℚ :=
  (audio.drop (i * FRAME_SIZE)).take FRAME_SIZE

/-- Per-frame RMS (worker line 438). -/
noncomputable def frameRms (audio : List ℚ) (i : Nat) : ℝ :=
  Real.sqrt ((sumSquares (frame audio i) : ℝ) / (FRAME_SIZE : ℝ))

open Classical in
/-- `hasSpeechActivity` (worker lines 427–443): at least two complete
frames with RMS strictly above the per-frame speech threshold. -/
def hasSpeechActivity (audio : List ℚ) : Prop :=
  2 ≤ ((Finset.range (totalFrames audio)).filter
        (fun i => (SPEECH_ENERGY_THRESHOLD : ℝ) < frameRms audio i)).card

/-- The gate decision of `transcribeCloud` (worker lines 395–397): the
chunk is processed iff the energy test does not reject it as silence and
the frame test finds speech activity. -/
def gateAccepts (audio : List ℚ) : Prop :=
  ¬ (getAudioEnergy audio < (SILENCE_THRESHOLD : ℝ)) ∧ hasSpeechActivity audio

/-! ## Theorems -/

/-- When every static check passes, the filter reduces to the duplicate-window
rule: suppress when the normalised form already occurred at least twice,
otherwise accept and push. -/
theorem filterHallucinations_of_staticPass (text : String) (recent : List String)
    (h : staticPass text = true) :
    filterHallucinations text recent =
      if 2 ≤ recent.count (jsNormalize text) then ("", recent)
      else (jsTrim text, pushRecent recent (jsNormalize text)) := by
  simp only [staticPass, Bool.and_eq_true, decide_eq_true_eq] at h
  obtain ⟨⟨⟨⟨⟨h1, h2⟩, h3⟩, h4⟩, h5⟩, h6⟩ := h
  simp only [filterHallucinations]
  rw [if_neg h1, if_neg (by simp [h2]), if_neg (by simp [h3]),
    if_neg (by push_neg; exact ⟨h4, by omega⟩), if_neg h6]

theorem windowShape_count {c : String} {k : Nat} {st : List String}
    (h : WindowShape c k st) : st.count c = k := by
  obtain ⟨pre, rfl, hpre, -⟩ := h
  rw [List.count_append, List.count_replicate_self,
    List.count_eq_zero.mpr (fun hc => hpre c hc rfl)]
  omega

theorem windowShape_push {c : String} {k : Nat} {st : List String}
    (h : WindowShape c k st) (hk : k + 1 ≤ MAX_RECENT) :
    WindowShape c (k + 1) (pushRecent st c) := by
  obtain ⟨pre, rfl, hpre, hlen⟩ := h
  have hrep : (pre ++ List.replicate k c) ++ [c] =
      pre ++ List.replicate (k + 1) c := by
    rw [List.replicate_succ' (n := k), List.append_assoc]
  simp only [pushRecent]
  split
  · rename_i h10
    match pre, hpre with
    | [], _ =>
      exfalso
      simp only [List.length_append, List.nil_append, List.length_replicate,
        List.length_cons, List.length_nil, MAX_RECENT] at h10 hk
      omega
    | p :: ps, hpre =>
      refine ⟨ps, ?_, fun x hx => hpre x (List.mem_cons_of_mem _ hx), ?_⟩
      · rw [hrep]; rfl
      · simp only [List.length_tail, List.length_append, MAX_RECENT,
          List.length_replicate, List.length_cons, List.length_nil] at hlen ⊢
        omega
  · rename_i h10
    refine ⟨pre, hrep, hpre, ?_⟩
    simp only [List.length_append, List.length_replicate, List.length_cons,
      List.length_nil, MAX_RECENT] at h10 ⊢
    omega

/-- C5: a candidate passing every static check, whose normalised form is
fresh in the window, is accepted on the first and second feed and suppressed
on the third — the boundary sits at two prior occurrences. -/
theorem outputFilter_dedup_boundary (text : String) (recent : List String)
    (hs : staticPass text = true)
    (h0 : recent.count (jsNormalize text) = 0)
    (hlen : recent.length ≤ MAX_RECENT) :
    (filterHallucinations text recent).1 ≠ "" ∧
    (filterHallucinations text (filterHallucinations text recent).2).1 ≠ "" ∧
    (filterHallucinations text
      (filterHallucinations text (filterHallucinations text recent).2).2).1
      = "" := by
  have htrim : jsTrim text ≠ "" := by
    simp only [staticPass, Bool.and_eq_true, decide_eq_true_eq] at hs
    exact hs.1.1.1.1.1
  have hnotin : jsNormalize text ∉ recent := List.count_eq_zero.mp h0
  have shape0 : WindowShape (jsNormalize text) 0 recent :=
    ⟨recent, by simp, fun x hx hxc => hnotin (hxc ▸ hx), hlen⟩
  have step1 := filterHallucinations_of_staticPass text recent hs
  rw [h0] at step1
  simp only [Nat.not_succ_le_zero, if_neg (by omega : ¬ (2:Nat) ≤ 0)] at step1
  have shape1 : WindowShape (jsNormalize text) 1 (pushRecent recent (jsNormalize text)) :=
    windowShape_push shape0 (by simp [MAX_RECENT])
  have step2 := filterHallucinations_of_staticPass text
    (pushRecent recent (jsNormalize text)) hs
  rw [windowShape_count shape1] at step2
  rw [if_neg (by omega : ¬ (2:Nat) ≤ 1)] at step2
  have shape2 : WindowShape (jsNormalize text) 2
      (pushRecent (pushRecent recent (jsNormalize text)) (jsNormalize text)) :=
    windowShape_push shape1 (by simp [MAX_RECENT])
  have step3 := filterHallucinations_of_staticPass text
    (pushRecent (pushRecent recent (jsNormalize text)) (jsNormalize text)) hs
  rw [windowShape_count shape2, if_pos (le_refl 2)] at step3
  refine ⟨?_, ?_, ?_⟩
  · rw [step1]; exact htrim
  · rw [step1]; simp only; rw [step2]; exact htrim
  · rw [step1]; simp only; rw [step2]; simp only; rw [step3]

/-- C5 witness: a concrete fresh phrase fed three times into an empty
window — first two feeds accepted, third suppressed. -/
theorem outputFilter_dedup_boundary_witness :
    staticPass "Something brand new here" = true ∧
    ([] : List String).count (jsNormalize "Something brand new here") = 0 ∧
    ([] : List String).length ≤ MAX_RECENT ∧
    ((filterHallucinations "Something brand new here" []).1 ≠ "" ∧
     (filterHallucinations "Something brand new here"
       (filterHallucinations "Something brand new here" []).2).1 ≠ "" ∧
     (filterHallucinations "Something brand new here"
       (filterHallucinations "Something brand new here"
         (filterHallucinations "Something brand new here" []).2).2).1 = "") :=
  ⟨by decide, by decide, by decide,
    outputFilter_dedup_boundary "Something brand new here" []
      (by decide) (by decide) (by decide)⟩

/-- C9: any input whose trim/punctuation-strip/lower-case normalisation is
exactly "thank you" is suppressed by the Output Filter, whatever the state
of the dedup window. -/
theorem thankYou_always_suppressed (text : String) (recent : List String)
    (h : jsNormalize text = "thank you") :
    (filterHallucinations text recent).1 = "" := by
  simp only [filterHallucinations]
  split
  · rfl
  split
  · rfl
  split
  · rfl
  split
  · rfl
  split
  · rfl
  · rename_i hmem
    exact absurd (by rw [h]; decide) hmem

/-- C9 witness: "THANK YOU." normalises to "thank you" and is suppressed. -/
theorem thankYou_always_suppressed_witness :
    jsNormalize "THANK YOU." = "thank you" ∧
    (filterHallucinations "THANK YOU." []).1 = "" :=
  ⟨by decide, thankYou_always_suppressed "THANK YOU." [] (by decide)⟩

/-- The proofread parser always returns exactly as many sentences as it was
given. -/
theorem parseProofread_length (newSentences : List String)
    (content : Option Json) :
    (parseProofread newSentences content).length = newSentences.length := by
  simp only [parseProofread]
  split
  · simp_all
  · split
    · rfl
    · rfl
    · split
      · assumption
      · rfl

/-! ## The append-only discipline of `completedSentences` -/

theorem set_append_cons (a : List String) (x r : String) (b : List String) :
    (a ++ x :: b).set a.length r = a ++ r :: b := by
  induction a with
  | nil => rfl
  | cons y ys ih => simp [List.set, ih]

theorem overwriteFrom_of_length_le (rs : List String) :
    ∀ (l : List String) (start : Nat), l.length ≤ start →
      overwriteFrom l start rs = l := by
  induction rs with
  | nil => intro l start _; rfl
  | cons r rs ih =>
      intro l start h
      simp only [overwriteFrom]
      rw [List.set_eq_of_length_le h]
      exact ih l (start + 1) (by omega)

/-- Writing a run starting exactly past `a` leaves `a` untouched. -/
theorem overwriteFrom_append (rs : List String) :
    ∀ (a b : List String),
      overwriteFrom (a ++ b) a.length rs = a ++ overwriteFrom b 0 rs := by
  induction rs with
  | nil => intro a b; rfl
  | cons r rs ih =>
      intro a b
      cases b with
      | nil =>
          simp only [overwriteFrom, List.append_nil]
          rw [List.set_eq_of_length_le (le_refl _),
            overwriteFrom_of_length_le rs a (a.length + 1) (by omega)]
          have h0 : ([] : List String).set 0 r = [] := rfl
          rw [h0, overwriteFrom_of_length_le rs [] (0 + 1) (by simp)]
          simp
      | cons x b' =>
          simp only [overwriteFrom]
          rw [set_append_cons]
          have h1 : a ++ r :: b' = (a ++ [r]) ++ b' := by simp
          have h2 : a.length + 1 = (a ++ [r]).length := by simp
          rw [h1, h2, ih (a ++ [r]) b']
          have h3 : (x :: b').set 0 r = r :: b' := rfl
          have h4 : (0 : Nat) + 1 = ([r] : List String).length := rfl
          have h5 : (r :: b' : List String) = [r] ++ b' := rfl
          rw [h3, h5, h4, ih [r] b']
          simp

/-- Overwriting a block with a replacement of the same length yields the
replacement. -/
theorem overwriteFrom_full (rs : List String) :
    ∀ (b : List String), rs.length = b.length →
      overwriteFrom b 0 rs = rs := by
  induction rs with
  | nil =>
      intro b h
      cases b with
      | nil => rfl
      | cons x b' => simp at h
  | cons r rs ih =>
      intro b h
      cases b with
      | nil => simp at h
      | cons x b' =>
          simp only [overwriteFrom]
          have h3 : (x :: b').set 0 r = r :: b' := rfl
          have h4 : (0 : Nat) + 1 = ([r] : List String).length := rfl
          have h5 : (r :: b' : List String) = [r] ++ b' := rfl
          rw [h3, h5, h4, overwriteFrom_append rs [r] b']
          rw [ih b' (by simpa using h)]
          rfl

/-- The translate loop only touches `recentOutputs`; buffer, completed
sentences and context pass through unchanged. -/
theorem translateLoop_frame (tr : String → Except String String)
    (l : List String) :
    ∀ (st : WorkerState) (evs : List Event),
      (translateLoop tr st evs l).state.sentenceBuffer = st.sentenceBuffer ∧
      (translateLoop tr st evs l).state.completedSentences =
        st.completedSentences ∧
      (translateLoop tr st evs l).state.contextBuffer = st.contextBuffer := by
  induction l with
  | nil => intro st evs; exact ⟨rfl, rfl, rfl⟩
  | cons s rest ih =>
      intro st evs
      simp only [translateLoop]
      cases tr s with
      | error e => exact ⟨rfl, rfl, rfl⟩
      | ok eng => exact ih _ _

/-- One chunk-processing step only ever appends to `completedSentences`;
the proofreader's in-place correction lands inside the appended block. -/
theorem cloudSentenceBuffered_completed_extends (proofReadEnabled : Bool)
    (ctxSize : Nat) (st : WorkerState) (o : ChunkOracle) :
    ∃ tail,
      (cloudSentenceBuffered proofReadEnabled ctxSize st o).state.completedSentences
        = st.completedSentences ++ tail := by
  unfold cloudSentenceBuffered
  cases o.transcribe with
  | error e => exact ⟨[], by simp⟩
  | ok koreanText =>
      simp only
      split
      · exact ⟨[], by simp⟩
      · cases hseg : o.segment with
        | error e => exact ⟨[], by simp⟩
        | ok content =>
            simp only
            split
            · cases hpr : o.proofread with
              | error e =>
                  refine ⟨(parseSentenceSplit
                    (appendBuffer st.sentenceBuffer koreanText) content).sentences, ?_⟩
                  exact (translateLoop_frame o.translate _ _ _).2.1
              | ok pcontent =>
                  refine ⟨overwriteFrom
                    (parseSentenceSplit
                      (appendBuffer st.sentenceBuffer koreanText) content).sentences 0
                    (parseProofread
                      (parseSentenceSplit
                        (appendBuffer st.sentenceBuffer koreanText) content).sentences
                      pcontent), ?_⟩
                  rw [(translateLoop_frame o.translate _ _ _).2.1]
                  simp only
                  rw [show (st.completedSentences ++
                      (parseSentenceSplit
                        (appendBuffer st.sentenceBuffer koreanText) content).sentences).length -
                      (parseSentenceSplit
                        (appendBuffer st.sentenceBuffer koreanText) content).sentences.length
                      = st.completedSentences.length by simp]
                  exact overwriteFrom_append _ _ _
            · refine ⟨(parseSentenceSplit
                (appendBuffer st.sentenceBuffer koreanText) content).sentences, ?_⟩
              exact (translateLoop_frame o.translate _ _ _).2.1

/-- C7: across one chunk-processing step, `completedSentences` is
append-only in chronological order: every entry present before the step
keeps its index and value, nothing is deleted or reordered, and the
proofreader's in-place correction only ever touches the block appended in
the same cycle. -/
theorem completedSentences_append_only (proofReadEnabled : Bool)
    (ctxSize : Nat) (st : WorkerState) (o : ChunkOracle) :
    ∃ tail,
      (cloudSentenceBuffered proofReadEnabled ctxSize st o).state.completedSentences
        = st.completedSentences ++ tail :=
  cloudSentenceBuffered_completed_extends proofReadEnabled ctxSize st o

/-- C10: a chunk whose recognize call returns empty or whitespace-only text
ends immediately: the state (sentence buffer, completed sentences, context,
dedup window) is untouched, no event is posted, nothing is thrown. -/
theorem empty_transcription_no_effect (proofReadEnabled : Bool)
    (ctxSize : Nat) (st : WorkerState) (o : ChunkOracle) (t : String)
    (ht : o.transcribe = Except.ok t) (htrim : jsTrim t = "") :
    cloudSentenceBuffered proofReadEnabled ctxSize st o = ⟨st, [], none⟩ := by
  unfold cloudSentenceBuffered
  rw [ht]
  simp [htrim]

/-! ## C3: segmentation fallback -/

/-- C3 counterexample: a segmentation reply that *is* valid JSON but of the
wrong shape (here the empty object, which is also what an absent
`choices[0].message.content` produces via the `|| chr(123)+chr(125)`
default) yields `pending = ""` — the submitted input text is discarded, not
kept as pending as the claim states. -/
theorem segmentation_malformed_counterexample :
    parseSentenceSplit "hello there how" (some (Json.obj [])) =
      { sentences := [], pending := "" } ∧
    ¬ (parseSentenceSplit "hello there how" (some (Json.obj []))).pending =
      "hello there how" := by
  exact ⟨rfl, by decide⟩

/-- C3 amended: when the segmentation reply content fails `JSON.parse` — or
parses to `null`, whose field access throws into the same catch — the
parser commits zero sentences and keeps the entire input as pending. -/
theorem segmentation_unparseable_fallback (input : String)
    (content : Option Json)
    (h : content = none ∨ content = some Json.null) :
    parseSentenceSplit input content = { sentences := [], pending := input } := by
  rcases h with h | h <;> subst h <;> rfl

/-- C3 amended witness. -/
theorem segmentation_unparseable_fallback_witness :
    ((none : Option Json) = none ∨ (none : Option Json) = some Json.null) ∧
    parseSentenceSplit "hello there how" none =
      { sentences := [], pending := "hello there how" } :=
  ⟨Or.inl rfl,
    segmentation_unparseable_fallback "hello there how" none (Or.inl rfl)⟩

/-! ## C4: proofread fallback -/

/-- A proofread reply that is unparseable, null, or of mismatched corrected
count falls back to the original sentences, exactly. -/
theorem parseProofread_fallback (newSentences : List String)
    (content : Option Json) (hne : newSentences ≠ [])
    (h : content = none ∨ content = some Json.null ∨
      ∃ j, content = some j ∧
        (correctedField j).length ≠ newSentences.length) :
    parseProofread newSentences content = newSentences := by
  have hlen : ¬ newSentences.length = 0 := by
    cases newSentences with
    | nil => exact absurd rfl hne
    | cons a l => simp
  rcases h with h | h | ⟨j, hj, hmis⟩
  · subst h; simp [parseProofread, hlen]
  · subst h; simp [parseProofread, hlen]
  · subst hj
    simp only [parseProofread, if_neg hlen]
    cases j <;> simp [hmis]

/-- C4: when the proofreading reply has a mismatched sentence count or is
unparseable, the whole chunk step behaves as if proofreading returned the
originals: the just-appended block of `completedSentences` holds exactly
the original sentences, the list forwarded to the translate loop is the
originals, and the context window is extended with that same (correct
length) list.  The duplicated transcript event mirrors the worker posting
the same snapshot before and after the (identity) correction. -/
theorem proofread_mismatch_keeps_originals
    (ctxSize : Nat) (st : WorkerState) (o : ChunkOracle) (t : String)
    (content pc : Option Json)
    (ht : o.transcribe = Except.ok t)
    (htne : ¬ jsTrim t = "")
    (hseg : o.segment = Except.ok content)
    (hpr : o.proofread = Except.ok pc)
    (hne : (parseSentenceSplit (appendBuffer st.sentenceBuffer t) content).sentences ≠ [])
    (hfb : pc = none ∨ pc = some Json.null ∨
      ∃ j, pc = some j ∧ (correctedField j).length ≠
        (parseSentenceSplit (appendBuffer st.sentenceBuffer t) content).sentences.length) :
    cloudSentenceBuffered true ctxSize st o =
      translateLoop o.translate
        { sentenceBuffer :=
            (parseSentenceSplit (appendBuffer st.sentenceBuffer t) content).pending
          completedSentences := st.completedSentences ++
            (parseSentenceSplit (appendBuffer st.sentenceBuffer t) content).sentences
          contextBuffer := fifoBound ctxSize (st.contextBuffer ++
            (parseSentenceSplit (appendBuffer st.sentenceBuffer t) content).sentences)
          recentOutputs := st.recentOutputs }
        [Event.transcriptUpdate st.completedSentences
            (appendBuffer st.sentenceBuffer t),
         Event.transcriptUpdate
            (st.completedSentences ++
              (parseSentenceSplit (appendBuffer st.sentenceBuffer t) content).sentences)
            (parseSentenceSplit (appendBuffer st.sentenceBuffer t) content).pending,
         Event.transcriptUpdate
            (st.completedSentences ++
              (parseSentenceSplit (appendBuffer st.sentenceBuffer t) content).sentences)
            (parseSentenceSplit (appendBuffer st.sentenceBuffer t) content).pending]
        (parseSentenceSplit (appendBuffer st.sentenceBuffer t) content).sentences := by
  have hcorr := parseProofread_fallback
    (parseSentenceSplit (appendBuffer st.sentenceBuffer t) content).sentences pc hne hfb
  unfold cloudSentenceBuffered
  rw [ht]
  simp only [htne, if_neg htne]
  rw [hseg]
  simp only [if_pos (And.intro rfl hne), hpr]
  rw [hcorr]
  have hidx : (st.completedSentences ++
      (parseSentenceSplit (appendBuffer st.sentenceBuffer t) content).sentences).length -
      (parseSentenceSplit (appendBuffer st.sentenceBuffer t) content).sentences.length
      = st.completedSentences.length := by simp
  rw [hidx, overwriteFrom_append, overwriteFrom_full _ _ rfl]
  simp [hne]

/-- C10 witness: the whitespace-only chunk leaves the initial state intact,
with no events and nothing thrown. -/
theorem empty_transcription_no_effect_witness :
    sampleWhitespaceOracle.transcribe = Except.ok "   " ∧ jsTrim "   " = "" ∧
    cloudSentenceBuffered true PROOFREAD_CONTEXT_SIZE WorkerState.initial
      sampleWhitespaceOracle =
      ⟨WorkerState.initial, [], none⟩ :=
  ⟨rfl, by decide,
    empty_transcription_no_effect true PROOFREAD_CONTEXT_SIZE
      WorkerState.initial sampleWhitespaceOracle "   " rfl (by decide)⟩

/-- C4 witness: with one completed sentence and a two-element corrected
reply, the step keeps the original sentence at its position, forwards it to
translation, and extends the context with it. -/
theorem proofread_mismatch_keeps_originals_witness :
    (correctedField sampleMismatchJson).length ≠
      (parseSentenceSplit
        (appendBuffer WorkerState.initial.sentenceBuffer "sentence one and")
        sampleSegContent).sentences.length ∧
    cloudSentenceBuffered true PROOFREAD_CONTEXT_SIZE WorkerState.initial
      sampleMismatchOracle =
      translateLoop sampleMismatchOracle.translate
        { sentenceBuffer := "and", completedSentences := ["sentence one"],
          contextBuffer := ["sentence one"], recentOutputs := [] }
        [Event.transcriptUpdate [] "sentence one and",
         Event.transcriptUpdate ["sentence one"] "and",
         Event.transcriptUpdate ["sentence one"] "and"]
        ["sentence one"] :=
  ⟨by decide,
    proofread_mismatch_keeps_originals PROOFREAD_CONTEXT_SIZE
      WorkerState.initial sampleMismatchOracle "sentence one and"
      sampleSegContent (some sampleMismatchJson) rfl (by decide) rfl rfl
      (by decide)
      (Or.inr (Or.inr ⟨sampleMismatchJson, rfl, by decide⟩))⟩

/-- The translate loop posts only translation events. -/
theorem translateLoop_no_error_events
    (tr : String → Except String String) (l : List String) :
    ∀ (st : WorkerState) (evs : List Event),
      (translateLoop tr st evs l).events.filter isErrorEvent =
        evs.filter isErrorEvent := by
  induction l with
  | nil => intro st evs; rfl
  | cons s rest ih =>
      intro st evs
      simp only [translateLoop]
      cases tr s with
      | error e => rfl
      | ok eng =>
          simp only
          rw [ih]
          split
          · simp [List.filter_append, isErrorEvent]
          · rfl

/-- The chunk body itself never posts an error event; errors are only
reported by the catch in `transcribeCloud`. -/
theorem cloudSentenceBuffered_no_error_events (proofReadEnabled : Bool)
    (ctxSize : Nat) (st : WorkerState) (o : ChunkOracle) :
    (cloudSentenceBuffered proofReadEnabled ctxSize st o).events.filter
      isErrorEvent = [] := by
  unfold cloudSentenceBuffered
  cases o.transcribe with
  | error e => rfl
  | ok koreanText =>
      simp only
      split
      · rfl
      · cases o.segment with
        | error e =>
            simp only
            split <;> rfl
        | ok content =>
            simp only
            split
            · cases o.proofread with
              | error e =>
                  rw [translateLoop_no_error_events]
                  split <;> rfl
              | ok pcontent =>
                  rw [translateLoop_no_error_events]
                  split <;> rfl
            · rw [translateLoop_no_error_events]
              split <;> rfl

/-- The context window is never corrupted: after a step it is always a
suffix of the old window extended by the sentences forwarded in this cycle
(FIFO eviction only — no prior entry is modified or reordered). -/
theorem cloudSentenceBuffered_context_suffix (proofReadEnabled : Bool)
    (ctxSize : Nat) (st : WorkerState) (o : ChunkOracle) :
    ∃ added, List.IsSuffix
      (cloudSentenceBuffered proofReadEnabled ctxSize st o).state.contextBuffer
      (st.contextBuffer ++ added) := by
  unfold cloudSentenceBuffered
  cases o.transcribe with
  | error e => exact ⟨[], by simp⟩
  | ok koreanText =>
      simp only
      split
      · exact ⟨[], by simp⟩
      · cases o.segment with
        | error e => exact ⟨[], by simp⟩
        | ok content =>
            simp only
            split
            · cases o.proofread with
              | error e =>
                  refine ⟨(parseSentenceSplit
                    (appendBuffer st.sentenceBuffer koreanText) content).sentences, ?_⟩
                  rw [(translateLoop_frame o.translate _ _ _).2.2]
                  simp only [fifoBound]
                  split
                  · exact List.drop_suffix _ _
                  · exact List.suffix_refl _
              | ok pcontent =>
                  refine ⟨parseProofread
                    (parseSentenceSplit
                      (appendBuffer st.sentenceBuffer koreanText) content).sentences
                    pcontent, ?_⟩
                  rw [(translateLoop_frame o.translate _ _ _).2.2]
                  simp only [fifoBound]
                  split
                  · exact List.drop_suffix _ _
                  · exact List.suffix_refl _
            · exact ⟨[], by simp [(translateLoop_frame o.translate _ _ _).2.2]⟩

/-- C8 counterexample: a proofread-call failure (a real inference-call
network failure mid-chunk) is swallowed by the catch at worker line 375 —
no error event is posted, nothing is thrown, and the chunk continues all
the way to an emitted translation, contradicting "a single error event,
terminating that chunk". -/
theorem inference_failure_event_counterexample :
    (transcribeCloudBody true PROOFREAD_CONTEXT_SIZE WorkerState.initial
      sampleProofreadFailOracle).2.filter isErrorEvent = [] ∧
    Event.translationUpdate "Here is a translation" ∈
      (transcribeCloudBody true PROOFREAD_CONTEXT_SIZE WorkerState.initial
        sampleProofreadFailOracle).2 ∧
    (cloudSentenceBuffered true PROOFREAD_CONTEXT_SIZE WorkerState.initial
      sampleProofreadFailOracle).thrown = none := by
  refine ⟨by decide, ?_, by decide⟩
  decide

/-- C8 amended: whenever a chunk's processing lets an exception escape
(recognize, segmentation or translate failure — anything but the swallowed
proofread failure), the worker posts exactly one error event for the chunk,
the entries of `completedSentences` committed by prior chunks keep their
indices and values, and the context window suffers at worst the documented
FIFO eviction of a bounded window — never corruption of prior entries. -/
theorem chunk_failure_single_error_event (proofReadEnabled : Bool)
    (ctxSize : Nat) (st : WorkerState) (o : ChunkOracle) (e : String)
    (h : (cloudSentenceBuffered proofReadEnabled ctxSize st o).thrown = some e) :
    (transcribeCloudBody proofReadEnabled ctxSize st o).2.filter isErrorEvent
      = [Event.errorMsg e] ∧
    (∃ tail, (transcribeCloudBody proofReadEnabled ctxSize st o).1.completedSentences
      = st.completedSentences ++ tail) ∧
    (∃ added, List.IsSuffix
      (transcribeCloudBody proofReadEnabled ctxSize st o).1.contextBuffer
      (st.contextBuffer ++ added)) := by
  have hstate : (transcribeCloudBody proofReadEnabled ctxSize st o).1 =
      (cloudSentenceBuffered proofReadEnabled ctxSize st o).state := by
    unfold transcribeCloudBody
    split <;> rename_i heq <;> rw [heq]
  have hevents : (transcribeCloudBody proofReadEnabled ctxSize st o).2 =
      (cloudSentenceBuffered proofReadEnabled ctxSize st o).events ++
        [Event.errorMsg e] := by
    unfold transcribeCloudBody
    split <;> rename_i heq <;> rw [heq] at h ⊢
    · simp only at h ⊢
      rw [(Option.some_inj.mp h)]
    · exact absurd h (by simp)
  refine ⟨?_, ?_, ?_⟩
  · rw [hevents, List.filter_append,
      cloudSentenceBuffered_no_error_events]
    rfl
  · rw [hstate]
    exact cloudSentenceBuffered_completed_extends proofReadEnabled ctxSize st o
  · rw [hstate]
    exact cloudSentenceBuffered_context_suffix proofReadEnabled ctxSize st o

/-- C8 amended witness: a failed recognize call posts exactly one error
event and leaves the (empty) prior state untouched. -/
theorem chunk_failure_single_error_event_witness :
    (cloudSentenceBuffered true PROOFREAD_CONTEXT_SIZE WorkerState.initial
      sampleTranscribeFailOracle).thrown = some "network down" ∧
    ((transcribeCloudBody true PROOFREAD_CONTEXT_SIZE WorkerState.initial
      sampleTranscribeFailOracle).2.filter isErrorEvent
        = [Event.errorMsg "network down"] ∧
     (∃ tail, (transcribeCloudBody true PROOFREAD_CONTEXT_SIZE
        WorkerState.initial sampleTranscribeFailOracle).1.completedSentences
        = WorkerState.initial.completedSentences ++ tail) ∧
     (∃ added, List.IsSuffix
        (transcribeCloudBody true PROOFREAD_CONTEXT_SIZE WorkerState.initial
          sampleTranscribeFailOracle).1.contextBuffer
        (WorkerState.initial.contextBuffer ++ added))) :=
  ⟨by decide,
    chunk_failure_single_error_event true PROOFREAD_CONTEXT_SIZE
      WorkerState.initial sampleTranscribeFailOracle "network down"
      (by decide)⟩

/-- C2 is violated by the code: per-session state survives the recording
session boundary.  After session one commits a sentence and leaves a
pending fragment, stopping and starting a recording session resets
nothing in the worker, and the first chunk of session two immediately
observes session one's completed sentence, pending buffer text (joined
onto its own), proofread context and dedup-window entry. -/
theorem session_state_persists_counterexample :
    (runWorker WorkerState.initial twoSessionPrefixMsgs).1.sentenceBuffer
      = "and" ∧
    (runWorker WorkerState.initial twoSessionPrefixMsgs).1.completedSentences
      = ["sentence one"] ∧
    (runWorker WorkerState.initial twoSessionPrefixMsgs).1.contextBuffer
      = ["sentence one"] ∧
    (runWorker WorkerState.initial twoSessionPrefixMsgs).1.recentOutputs
      = ["here is a translation"] ∧
    (onMessage (runWorker WorkerState.initial twoSessionPrefixMsgs).1
        (WorkerMsg.transcribe true sampleSession2Oracle)).2.head?
      = some (Event.transcriptUpdate ["sentence one"] "and more words") := by
  refine ⟨by decide, by decide, by decide, by decide, by decide⟩

theorem insertByTime_append (ts : List Nat) (i : Nat) :
    ∀ acc, (∀ j ∈ acc, ts.getD j 0 ≤ ts.getD i 0) →
      insertByTime ts i acc = acc ++ [i] := by
  intro acc
  induction acc with
  | nil => intro _; rfl
  | cons j rest ih =>
      intro h
      simp only [insertByTime]
      rw [if_neg (not_lt.mpr (h j (List.mem_cons_self j rest))),
        ih (fun k hk => h k (List.mem_cons_of_mem j hk))]
      rfl

theorem getD_map_completionTime (chunks : List TimedChunk) (j : Nat)
    (hj : j < chunks.length) :
    (chunks.map completionTime).getD j 0 =
      completionTime (chunks.getD j ⟨0, []⟩) := by
  simp [List.getD, List.getElem?_map, List.getElem?_eq_getElem hj]

theorem serialized_completion_monotone (chunks : List TimedChunk)
    (h : Serialized chunks) :
    ∀ j, j < chunks.length → ∀ i, i ≤ j →
      completionTime (chunks.getD i ⟨0, []⟩) ≤
        completionTime (chunks.getD j ⟨0, []⟩) := by
  intro j
  induction j with
  | zero =>
      intro _ i hi
      have : i = 0 := by omega
      subst this
      exact le_refl _
  | succ k ih =>
      intro hk i hi
      rcases Nat.lt_or_ge i (k + 1) with hlt | hge
      · have hik : i ≤ k := by omega
        have h1 := ih (by omega) i hik
        have h2 := h k (k + 1) rfl hk
        have h3 : (chunks.getD (k + 1) ⟨0, []⟩).arrival ≤
            completionTime (chunks.getD (k + 1) ⟨0, []⟩) :=
          Nat.le_add_right _ _
        omega
      · have : i = k + 1 := by omega
        subst this
        exact le_refl _

/-- Had the worker serialised chunk processing (the property the claim
asserts), emission order would be exactly capture order. -/
theorem serialized_emission_in_order (chunks : List TimedChunk)
    (h : Serialized chunks) :
    emissionOrder chunks = List.range chunks.length := by
  suffices haux : ∀ k, k ≤ chunks.length →
      (List.range k).foldl
        (fun acc i => insertByTime (chunks.map completionTime) i acc) [] =
        List.range k by
    exact haux chunks.length (le_refl _)
  intro k
  induction k with
  | zero => intro _; rfl
  | succ m ih =>
      intro hm
      rw [List.range_succ, List.foldl_append, ih (by omega)]
      simp only [List.foldl_cons, List.foldl_nil]
      rw [insertByTime_append]
      intro j hj
      have hjm : j < m := List.mem_range.mp hj
      rw [getD_map_completionTime chunks j (by omega),
        getD_map_completionTime chunks m (by omega)]
      exact serialized_completion_monotone chunks h m (by omega) j (by omega)

/-- C1 is violated by the code: the worker dispatches overlapping chunk
handlers (the scenario is not serialized — chunk B arrives long before
chunk A completes) and the emitted events follow completion order
B, C, A instead of capture order A, B, C. -/
theorem emission_order_not_capture_order :
    emissionOrder reorderingScenario = [1, 2, 0] ∧
    emissionOrder reorderingScenario ≠
      List.range reorderingScenario.length ∧
    ¬ Serialized reorderingScenario := by
  refine ⟨by decide, by decide, fun h => ?_⟩
  exact absurd (h 0 1 rfl (by decide)) (by decide)

theorem sumSquares_replicate (n : Nat) (x : ℚ) :
    sumSquares (List.replicate n x) = n * (x * x) := by
  simp only [sumSquares, List.map_replicate, List.sum_replicate, nsmul_eq_mul]

theorem sumSquares_zero_of_all_zero (audio : List ℚ)
    (h : ∀ x ∈ audio, x = 0) : sumSquares audio = 0 := by
  apply List.sum_eq_zero
  intro y hy
  obtain ⟨x, hx, rfl⟩ := List.mem_map.mp hy
  rw [h x hx, mul_zero]

theorem getAudioEnergy_replicate (n : Nat) (x : ℚ) (hn : n ≠ 0)
    (hx : 0 ≤ x) : getAudioEnergy (List.replicate n x) = (x : ℝ) := by
  unfold getAudioEnergy
  rw [sumSquares_replicate, List.length_replicate]
  push_cast
  have hne : (n : ℝ) ≠ 0 := Nat.cast_ne_zero.mpr hn
  rw [mul_div_cancel_left₀ _ hne,
    Real.sqrt_mul_self (by exact_mod_cast hx)]

theorem frameRms_replicate (n k : Nat) (x : ℚ) (hx : 0 ≤ x)
    (hk : (k + 1) * FRAME_SIZE ≤ n) :
    frameRms (List.replicate n x) k = (x : ℝ) := by
  have hfr : frame (List.replicate n x) k = List.replicate FRAME_SIZE x := by
    unfold frame
    rw [List.drop_replicate, List.take_replicate]
    congr 1
    simp only [FRAME_SIZE] at hk ⊢
    omega
  unfold frameRms
  rw [hfr, sumSquares_replicate]
  push_cast
  have hne : ((FRAME_SIZE : ℕ) : ℝ) ≠ 0 := by norm_num [FRAME_SIZE]
  rw [mul_div_cancel_left₀ _ hne,
    Real.sqrt_mul_self (by exact_mod_cast hx)]

/-- C6: the Chunk Gate — a pure function of the samples, with no side
effect and no network call — always rejects an all-zero sample buffer,
and always accepts a buffer whose overall RMS is at or above the silence
threshold when at least two distinct 100 ms frames each have RMS above
the per-frame speech threshold. -/
theorem chunkGate_correct (audio : List ℚ) :
    ((∀ x ∈ audio, x = 0) → ¬ gateAccepts audio) ∧
    ((SILENCE_THRESHOLD : ℝ) ≤ getAudioEnergy audio →
      (∃ i j, i < j ∧ j < totalFrames audio ∧
        (SPEECH_ENERGY_THRESHOLD : ℝ) < frameRms audio i ∧
        (SPEECH_ENERGY_THRESHOLD : ℝ) < frameRms audio j) →
      gateAccepts audio) := by
  constructor
  · intro hz hacc
    have he : getAudioEnergy audio = 0 := by
      unfold getAudioEnergy
      rw [sumSquares_zero_of_all_zero audio hz]
      simp
    refine hacc.1 ?_
    rw [he]
    simp only [SILENCE_THRESHOLD]
    norm_num
  · rintro he ⟨i, j, hij, hj, hi2, hj2⟩
    refine ⟨not_lt.mpr he, ?_⟩
    unfold hasSpeechActivity
    have hmi : i ∈ (Finset.range (totalFrames audio)).filter
        (fun k => (SPEECH_ENERGY_THRESHOLD : ℝ) < frameRms audio k) :=
      Finset.mem_filter.mpr ⟨Finset.mem_range.mpr (lt_trans hij hj), hi2⟩
    have hmj : j ∈ (Finset.range (totalFrames audio)).filter
        (fun k => (SPEECH_ENERGY_THRESHOLD : ℝ) < frameRms audio k) :=
      Finset.mem_filter.mpr ⟨Finset.mem_range.mpr hj, hj2⟩
    calc 2 = ({i, j} : Finset ℕ).card :=
          (Finset.card_pair (ne_of_lt hij)).symm
      _ ≤ _ := by
          apply Finset.card_le_card
          intro x hx
          rcases Finset.mem_insert.mp hx with h | h
          · exact h ▸ hmi
          · exact (Finset.mem_singleton.mp h) ▸ hmj

/-- C6 witness: a 200 ms all-zero buffer is rejected; a 200 ms constant
buffer at amplitude 1/2 (RMS 1/2 overall and in both frames) is
accepted. -/
theorem chunkGate_correct_witness :
    (∀ x ∈ List.replicate 3200 (0 : ℚ), x = 0) ∧
    ¬ gateAccepts (List.replicate 3200 (0 : ℚ)) ∧
    (SILENCE_THRESHOLD : ℝ) ≤ getAudioEnergy (List.replicate 3200 (1/2 : ℚ)) ∧
    gateAccepts (List.replicate 3200 (1/2 : ℚ)) := by
  have hz : ∀ x ∈ List.replicate 3200 (0 : ℚ), x = 0 :=
    fun x hx => List.eq_of_mem_replicate hx
  have he : (SILENCE_THRESHOLD : ℝ) ≤
      getAudioEnergy (List.replicate 3200 (1/2 : ℚ)) := by
    rw [getAudioEnergy_replicate 3200 (1/2) (by norm_num) (by norm_num)]
    simp only [SILENCE_THRESHOLD]
    norm_num
  have hfr : ∃ i j, i < j ∧ j < totalFrames (List.replicate 3200 (1/2 : ℚ)) ∧
      (SPEECH_ENERGY_THRESHOLD : ℝ) <
        frameRms (List.replicate 3200 (1/2 : ℚ)) i ∧
      (SPEECH_ENERGY_THRESHOLD : ℝ) <
        frameRms (List.replicate 3200 (1/2 : ℚ)) j := by
    refine ⟨0, 1, by omega, ?_, ?_, ?_⟩
    · simp only [totalFrames, List.length_replicate, FRAME_SIZE]
      norm_num
    · rw [frameRms_replicate 3200 0 (1/2) (by norm_num)
        (by simp [FRAME_SIZE])]
      simp only [SPEECH_ENERGY_THRESHOLD]
      norm_num
    · rw [frameRms_replicate 3200 1 (1/2) (by norm_num)
        (by simp [FRAME_SIZE])]
      simp only [SPEECH_ENERGY_THRESHOLD]
      norm_num
  exact ⟨hz, (chunkGate_correct _).1 hz, he, (chunkGate_correct _).2 he hfr⟩

end LiveTranslator

